import Mathlib

/-!
Verification of the shift-management core (spec.md) for TW-10519/major2-backup.

The repository ships the React frontend (EmployeePage.jsx, ManagerPage.jsx,
App.jsx) together with the project README; the Python backend files that the
README names (backend/main.py, backend/scheduler.py, backend/models.py) are not
part of the sources available here.  The frontend is therefore embedded
directly from the .jsx sources, while every backend operation is modelled from
the specification text (each such definition carries a doc comment starting
with `Modelled from the spec:`).

Conventions of the shallow embedding:
* dates are day indices (`Nat`) with day 0 a Monday, so `weekday d = d % 7 + 1`
  (1 = Monday .. 7 = Sunday, as in the Shift form of ManagerPage.jsx) and ISO
  weeks are the blocks of seven consecutive days, `isoWeek d = d / 7`;
* times of day and clock timestamps are minutes (`Nat`); fractional hour
  quantities (worked_hours, balances, hour caps) are rationals (`ℚ`),
  `durH st en = (en - st) / 60`;
* the database tables are lists inside a single state record `Sys`; each
  operation is a function `Sys → Except Err Sys` (or a total function when the
  spec says the operation always succeeds).
-/

namespace SMS

/-- Error taxonomy of spec §7. -/
inductive Err
  | ValidationError
  | NotFoundError
  | ConflictError
  | ConstraintViolation
deriving DecidableEq, Repr

inductive ApprovalStatus
  | PENDING
  | APPROVED
  | REJECTED
deriving DecidableEq, Repr

inductive OvertimeType
  | NORMAL
  | NIGHT
  | HOLIDAY
deriving DecidableEq, Repr

inductive CompensationMode
  | EXTRA_PAY
  | COMP_OFF
deriving DecidableEq, Repr

inductive LeaveType
  | PAID
  | UNPAID
  | COMP_OFF
deriving DecidableEq, Repr

inductive LeaveDuration
  | FULL_DAY
  | HALF_DAY
deriving DecidableEq, Repr

inductive AttStatus
  | PRESENT
  | ABSENT
deriving DecidableEq, Repr

/-- Role (spec §3): work-day labels (1..7), hour caps, break, employment type. -/
structure Role where
  id : Nat
  work_days : List Nat
  daily_work_hours : ℚ
  weekly_hours_limit : ℚ
  break_minutes : Nat
deriving DecidableEq, Repr

/-- Shift template (spec §3): role, day-of-week 1..7, window, priority, skills. -/
structure Shift where
  id : Nat
  role_id : Nat
  day_of_week : Nat
  start_time : Nat
  end_time : Nat
  priority : Int
  required_skills : List Nat
deriving DecidableEq, Repr

structure Employee where
  id : Nat
  role_id : Nat
  is_active : Bool
  skills : List Nat
  yearly_paid_leave_allowance : ℚ
deriving DecidableEq, Repr

/-- Schedule row (spec §3): planned work; `shift_id = none` means custom/manual. -/
structure Schedule where
  employee_id : Nat
  date : Nat
  start_time : Nat
  end_time : Nat
  shift_id : Option Nat
deriving DecidableEq, Repr

/-- Attendance record (spec §3): open while `clock_out = none`, immutable once closed. -/
structure Attendance where
  employee_id : Nat
  date : Nat
  clock_in : Nat
  clock_out : Option Nat
  worked_hours : Option ℚ
  status : AttStatus
deriving DecidableEq, Repr

structure Overtime where
  id : Nat
  employee_id : Nat
  date : Nat
  actual_hours : ℚ
  overtime_type : OvertimeType
  compensation_mode : CompensationMode
  approval_status : ApprovalStatus
deriving DecidableEq, Repr

structure Leave where
  id : Nat
  employee_id : Nat
  date : Nat
  leave_type : LeaveType
  duration : LeaveDuration
  approval_status : ApprovalStatus
deriving DecidableEq, Repr

/-- Holiday (spec §3): a date plus the roles it applies to. -/
structure Holiday where
  date : Nat
  role_ids : List Nat
deriving DecidableEq, Repr

/-- The shared persistent state (spec §5): the tables plus the configured
night band (minutes of day, `[night_start, night_end)`). -/
structure Sys where
  roles : List Role
  shifts : List Shift
  employees : List Employee
  schedules : List Schedule
  attendance : List Attendance
  overtimes : List Overtime
  leaves : List Leave
  holidays : List Holiday
  night_start : Nat
  night_end : Nat
deriving DecidableEq, Repr

def weekday (d : Nat) : Nat := d % 7 + 1

def isoWeek (d : Nat) : Nat := d / 7

/-- Fractional hours of a minute window (truncated `Nat` subtraction, then `/60`). -/
def durH (st en : Nat) : ℚ := ((en - st : Nat) : ℚ) / 60

def durDays : LeaveDuration → ℚ
  | .FULL_DAY => 1
  | .HALF_DAY => 1 / 2

/-- Modelled from the spec: §4.5 `isBlocked(employee, date)` — true iff an
APPROVED Leave of that employee covers the date (Leave entries carry a single
date). -/
def isBlocked (s : Sys) (emp d : Nat) : Bool :=
  s.leaves.any fun l =>
    l.employee_id == emp && l.date == d && l.approval_status == .APPROVED

/-- A Holiday applicable to `role` exists on `d` (spec §3: Holiday scope). -/
def isHolidayFor (s : Sys) (role : Role) (d : Nat) : Bool :=
  s.holidays.any fun h => h.date == d && h.role_ids.contains role.id

/-- Some Holiday exists on `d` (spec §4.4 type rule: "HOLIDAY if date is a Holiday"). -/
def isHolidayAny (s : Sys) (d : Nat) : Bool :=
  s.holidays.any fun h => h.date == d

/-- The configured night band `[night_start, night_end)` overlaps `[ws, we)`. -/
def overlapsNight (s : Sys) (ws we : Nat) : Bool :=
  ws < s.night_end && s.night_start < we

/-- Two same-date time windows overlap. -/
def windowsOverlap (ws we rs re : Nat) : Bool :=
  rs < we && ws < re

/-- The employee already has a Schedule on `d` whose window overlaps `[ws, we)`
(spec §4.1 filter (c), also the §4.2 step-4 insert-time re-check). -/
def hasOverlap (s : Sys) (emp d ws we : Nat) : Bool :=
  s.schedules.any fun row =>
    row.employee_id == emp && row.date == d &&
      windowsOverlap ws we row.start_time row.end_time

/-- Sum of the employee's scheduled hours inside ISO week `w`. -/
def scheduledHours (s : Sys) (emp w : Nat) : ℚ :=
  ((s.schedules.filter fun row =>
      row.employee_id == emp && isoWeek row.date == w).map
    fun row => durH row.start_time row.end_time).sum

/-- Generic insertion by a boolean "less-or-equal" test. -/
def insertBy (le : α → α → Bool) (a : α) : List α → List α
  | [] => [a]
  | b :: bs => if le a b then a :: b :: bs else b :: insertBy le a bs

/-- Insertion sort by a boolean "less-or-equal" test. -/
def sortBy (le : α → α → Bool) (l : List α) : List α :=
  l.foldr (insertBy le) []

/-- Modelled from the spec: §4.1 exclusion filters (a)–(f) of the Availability
Resolver, as a single membership test over the employees of `role`. -/
def empChk (s : Sys) (role : Role) (d ws we : Nat) (skills : List Nat)
    (e : Employee) : Bool :=
  e.role_id == role.id &&
  e.is_active &&
  !(isBlocked s e.id d) &&
  !(hasOverlap s e.id d ws we) &&
  decide (scheduledHours s e.id (isoWeek d) + durH ws we ≤ role.weekly_hours_limit) &&
  role.work_days.contains (weekday d) &&
  skills.all (fun k => e.skills.contains k)

/-- Modelled from the spec: §4.1 `resolve(role, date, window)` — the eligible
employee ids after filters (a)–(f), ordered by ascending employee id.  The
shift's required skills travel with the window, per filter (f). -/
def resolve (s : Sys) (role : Role) (d ws we : Nat) (skills : List Nat) :
    List Nat :=
  sortBy (fun a b => a ≤ b) ((s.employees.filter (empChk s role d ws we skills)).map (·.id))

/-- Reasons recorded in a generation skip entry (spec §4.2). -/
inductive SkipReason
  | HOLIDAY
  | UNSTAFFED
deriving DecidableEq, Repr

structure SkipEntry where
  date : Nat
  shift_id : Option Nat
  reason : SkipReason
deriving DecidableEq, Repr

/-- Generation summary (spec §4.2): `{created : count, skipped : list}`. -/
structure Summary where
  created : Nat
  skipped : List SkipEntry
deriving DecidableEq, Repr

/-- One per-slot outcome inside a generation run. -/
inductive GenEntry
  | created (row : Schedule)
  | skip (e : SkipEntry)
deriving DecidableEq, Repr

def GenEntry.edate : GenEntry → Nat
  | .created row => row.date
  | .skip sk => sk.date

def skipsOf (es : List GenEntry) : List SkipEntry :=
  es.filterMap fun e =>
    match e with
    | .skip sk => some sk
    | .created _ => none

def createdCount (es : List GenEntry) : Nat :=
  es.countP fun e =>
    match e with
    | .created _ => true
    | .skip _ => false

/-- The role's shift templates matching the weekday of `d`, ordered by
descending priority then ascending shift id (spec §4.2 step 2). -/
def shiftsOn (shifts : List Shift) (role : Role) (d : Nat) : List Shift :=
  sortBy (fun a b => b.priority < a.priority ||
      (a.priority == b.priority && a.id ≤ b.id))
    (shifts.filter fun sh => sh.role_id == role.id && sh.day_of_week == weekday d)

/-- Modelled from the spec: §4.2 steps 3–4 — resolve the slot, assign the first
candidate, re-checking for a conflicting Schedule right before the insert and
degrading to an UNSTAFFED skip on conflict. -/
def processShift (s : Sys) (d : Nat) (sh : Shift) (role : Role) :
    Sys × GenEntry :=
  match resolve s role d sh.start_time sh.end_time sh.required_skills with
  | [] => (s, .skip ⟨d, some sh.id, .UNSTAFFED⟩)
  | eid :: _ =>
      if hasOverlap s eid d sh.start_time sh.end_time then
        (s, .skip ⟨d, some sh.id, .UNSTAFFED⟩)
      else
        ({s with schedules :=
            ⟨eid, d, sh.start_time, sh.end_time, some sh.id⟩ :: s.schedules},
          .created ⟨eid, d, sh.start_time, sh.end_time, some sh.id⟩)

def processShifts (s : Sys) (d : Nat) (role : Role) :
    List Shift → Sys × List GenEntry
  | [] => (s, [])
  | sh :: shs =>
      let p := processShift s d sh role
      let q := processShifts p.1 d role shs
      (q.1, p.2 :: q.2)

/-- Modelled from the spec: §4.2 step 1 — a Holiday applicable to the role
yields a single HOLIDAY skip for the whole date with no shift-level
evaluation; otherwise every matching shift template is processed. -/
def processDate (s : Sys) (role : Role) (d : Nat) : Sys × List GenEntry :=
  if isHolidayFor s role d then (s, [.skip ⟨d, none, .HOLIDAY⟩])
  else processShifts s d role (shiftsOn s.shifts role d)

def processDates (s : Sys) (role : Role) : List Nat → Sys × List GenEntry
  | [] => (s, [])
  | d :: ds =>
      let p := processDate s role d
      let q := processDates p.1 role ds
      (q.1, p.2 ++ q.2)

def dateRange (a b : Nat) : List Nat :=
  (List.range (b + 1 - a)).map fun i => a + i

/-- Modelled from the spec: §4.2 `generate(role, start_date, end_date)` —
structural errors (unknown role, invalid date order) fail synchronously before
any Schedule is written; otherwise every date of the inclusive range is
processed and the complete summary is returned. -/
def generate (s : Sys) (rid a b : Nat) : Except Err (Sys × Summary) :=
  match s.roles.find? (fun r => r.id == rid) with
  | none => .error .NotFoundError
  | some role =>
      if b < a then .error .ValidationError
      else
        .ok ((processDates s role (dateRange a b)).1,
          ⟨createdCount (processDates s role (dateRange a b)).2,
           skipsOf (processDates s role (dateRange a b)).2⟩)

/-- Modelled from the spec: §4.4 type rule, evaluated in order — HOLIDAY if the
date is a Holiday; NIGHT if the excess interval (when one exists) overlaps the
configured night band; else NORMAL.  Employee-initiated requests carry no time
interval, so for them only the date-determined clauses can fire. -/
def classifyType (s : Sys) (d : Nat) (w : Option (Nat × Nat)) : OvertimeType :=
  if isHolidayAny s d then .HOLIDAY
  else
    match w with
    | some (ws, we) => if overlapsNight s ws we then .NIGHT else .NORMAL
    | none => .NORMAL

/-- Modelled from the spec: §4.4 `classify(employee, date, candidate_hours,
window)` — a PENDING Overtime entry iff `candidate_hours > 0`, with
`compensation_mode` defaulting to EXTRA_PAY for auto-detected overtime. -/
def classify (s : Sys) (emp d : Nat) (cand : ℚ) (w : Option (Nat × Nat)) :
    Option Overtime :=
  if 0 < cand then
    some ⟨s.overtimes.length, emp, d, cand, classifyType s d w, .EXTRA_PAY, .PENDING⟩
  else none

/-- Modelled from the spec: §4.3 `clockIn(employee, date, timestamp)` —
ConflictError if a record already exists for (employee, date) in any state,
ConstraintViolation if an APPROVED Leave covers the date; on success an open
PRESENT record is created. -/
def clockIn (s : Sys) (emp d ts : Nat) : Except Err Sys :=
  if s.attendance.any (fun a => a.employee_id == emp && a.date == d) then
    .error .ConflictError
  else if isBlocked s emp d then
    .error .ConstraintViolation
  else
    .ok {s with attendance := ⟨emp, d, ts, none, none, .PRESENT⟩ :: s.attendance}

/-- The open Attendance record of (employee, date), when one exists. -/
def openRec (s : Sys) (emp d : Nat) : Option Attendance :=
  s.attendance.find? fun a =>
    a.employee_id == emp && a.date == d && a.clock_out.isNone

/-- Close the still-open records of (employee, date), leaving closed records
untouched. -/
def closeUpd (emp d ts : Nat) (wh : ℚ) (x : Attendance) : Attendance :=
  if x.employee_id == emp && x.date == d && x.clock_out.isNone then
    {x with clock_out := some ts, worked_hours := some wh}
  else x

/-- The state after sealing the open record `a` of (employee, date) at `ts`:
`worked_hours = (ts - clock_in) / 60` fractional hours. -/
def closeSys (s : Sys) (emp d ts : Nat) (a : Attendance) : Sys :=
  {s with attendance :=
    s.attendance.map (closeUpd emp d ts (((ts - a.clock_in : Nat) : ℚ) / 60))}

/-- Modelled from the spec: §4.3 `clockOut(employee, date, timestamp)` —
NotFoundError without an open record, ConstraintViolation if
`timestamp ≤ clock_in`; on success the record is closed with
`worked_hours = timestamp - clock_in` in fractional hours and, when a Schedule
exists for the date, the delta against the scheduled window's duration is
handed to the Overtime Classifier together with the excess interval
`[scheduled end, timestamp)`. -/
def clockOut (s : Sys) (emp d ts : Nat) : Except Err Sys :=
  match openRec s emp d with
  | none => .error .NotFoundError
  | some a =>
      if ts ≤ a.clock_in then .error .ConstraintViolation
      else
        match s.schedules.find? (fun row => row.employee_id == emp && row.date == d) with
        | none => .ok (closeSys s emp d ts a)
        | some row =>
            match classify (closeSys s emp d ts a) emp d
                ((((ts - a.clock_in : Nat) : ℚ) / 60) - durH row.start_time row.end_time)
                (some (row.end_time, ts)) with
            | none => .ok (closeSys s emp d ts a)
            | some ot => .ok {closeSys s emp d ts a with
                overtimes := (closeSys s emp d ts a).overtimes ++ [ot]}

/-- Modelled from the spec: §4.5 `requestLeave` — always accepted at request
time regardless of balance; the entry is created PENDING. -/
def requestLeave (s : Sys) (emp d : Nat) (lt : LeaveType) (dur : LeaveDuration) :
    Sys × Leave :=
  let lv : Leave := ⟨s.leaves.length, emp, d, lt, dur, .PENDING⟩
  ({s with leaves := s.leaves ++ [lv]}, lv)

/-- Modelled from the spec: §4.4/§6 `requestOvertime` — employee-initiated
entries carry the requester's compensation_mode and are created PENDING
directly; the overtime_type field is still computed from the date by the
classifier's type rule, not taken from the request. -/
def requestOvertime (s : Sys) (emp d : Nat) (hours : ℚ) (_treq : OvertimeType)
    (mode : CompensationMode) : Sys × Overtime :=
  let ot : Overtime :=
    ⟨s.overtimes.length, emp, d, hours, classifyType s d none, mode, .PENDING⟩
  ({s with overtimes := s.overtimes ++ [ot]}, ot)

def yearlyAllowance (s : Sys) (emp : Nat) : ℚ :=
  match s.employees.find? (fun e => e.id == emp) with
  | some e => e.yearly_paid_leave_allowance
  | none => 0

/-- Days of APPROVED PAID leave of `emp` in a list of Leave entries. -/
def leavesPaidDays (ls : List Leave) (emp : Nat) : ℚ :=
  ((ls.filter fun l =>
      l.employee_id == emp && l.leave_type == .PAID &&
        l.approval_status == .APPROVED).map
    fun l => durDays l.duration).sum

/-- Days of APPROVED PAID leave of the employee (the model covers a single
allowance year, so no year filter appears). -/
def paidUsed (s : Sys) (emp : Nat) : ℚ :=
  leavesPaidDays s.leaves emp

/-- Modelled from the spec: §4.5 `paid_remaining = yearly allowance − sum of
APPROVED PAID leave durations`. -/
def paidRemaining (s : Sys) (emp : Nat) : ℚ :=
  yearlyAllowance s emp - paidUsed s emp

/-- Day-equivalent of overtime hours (spec §4.6 "actual_hours-derived
day-equivalent"; modelled as hours over an eight-hour day). -/
def dayEquiv (h : ℚ) : ℚ := h / 8

/-- Modelled from the spec: §4.5 comp-off balance — credits from APPROVED
COMP_OFF-compensated Overtime minus APPROVED COMP_OFF leave durations.
Because the balance is derived from the approval states, the §4.6 credit is
atomic with the status write by construction. -/
def compOffBalance (s : Sys) (emp : Nat) : ℚ :=
  ((s.overtimes.filter fun o =>
      o.employee_id == emp && o.compensation_mode == .COMP_OFF &&
        o.approval_status == .APPROVED).map
    fun o => dayEquiv o.actual_hours).sum -
  ((s.leaves.filter fun l =>
      l.employee_id == emp && l.leave_type == .COMP_OFF &&
        l.approval_status == .APPROVED).map
    fun l => durDays l.duration).sum

inductive Kind
  | OVERTIME
  | LEAVE
deriving DecidableEq, Repr

inductive Decision
  | APPROVED
  | REJECTED
deriving DecidableEq, Repr

def Decision.toStatus : Decision → ApprovalStatus
  | .APPROVED => .APPROVED
  | .REJECTED => .REJECTED

/-- Update the first Overtime entry with the given id. -/
def setOvertimeStatus : List Overtime → Nat → ApprovalStatus → List Overtime
  | [], _, _ => []
  | o :: os, id, st =>
      if o.id == id then {o with approval_status := st} :: os
      else o :: setOvertimeStatus os id st

/-- Update the first Leave entry with the given id. -/
def setLeaveStatus : List Leave → Nat → ApprovalStatus → List Leave
  | [], _, _ => []
  | l :: ls, id, st =>
      if l.id == id then {l with approval_status := st} :: ls
      else l :: setLeaveStatus ls id st

/-- Modelled from the spec: §4.6 `approve(kind, id, decision)` — ConflictError
unless the entity is PENDING; LEAVE → APPROVED validates PAID against
`paid_remaining` and COMP_OFF against the comp-off balance, failing with
ConstraintViolation and leaving the entity PENDING; REJECTED is a status write
only.  Balance effects are atomic with the status write because balances are
derived from the approval states. -/
def approve (s : Sys) (k : Kind) (id : Nat) (dec : Decision) : Except Err Sys :=
  match k with
  | .OVERTIME =>
      match s.overtimes.find? (fun o => o.id == id) with
      | none => .error .NotFoundError
      | some o =>
          if o.approval_status ≠ .PENDING then .error .ConflictError
          else .ok {s with overtimes := setOvertimeStatus s.overtimes id dec.toStatus}
  | .LEAVE =>
      match s.leaves.find? (fun l => l.id == id) with
      | none => .error .NotFoundError
      | some l =>
          if l.approval_status ≠ .PENDING then .error .ConflictError
          else
            match dec with
            | .REJECTED =>
                .ok {s with leaves := setLeaveStatus s.leaves id .REJECTED}
            | .APPROVED =>
                match l.leave_type with
                | .UNPAID =>
                    .ok {s with leaves := setLeaveStatus s.leaves id .APPROVED}
                | .PAID =>
                    if paidRemaining s l.employee_id < durDays l.duration then
                      .error .ConstraintViolation
                    else .ok {s with leaves := setLeaveStatus s.leaves id .APPROVED}
                | .COMP_OFF =>
                    if compOffBalance s l.employee_id < durDays l.duration then
                      .error .ConstraintViolation
                    else .ok {s with leaves := setLeaveStatus s.leaves id .APPROVED}

/-- Current approval_status of the entity addressed by `approve`. -/
def statusOf (s : Sys) (k : Kind) (id : Nat) : Option ApprovalStatus :=
  match k with
  | .OVERTIME => (s.overtimes.find? (fun o => o.id == id)).map (·.approval_status)
  | .LEAVE => (s.leaves.find? (fun l => l.id == id)).map (·.approval_status)

/-- The state after an `approve` call: unchanged when the call failed. -/
def runApprove (s : Sys) (k : Kind) (id : Nat) (dec : Decision) : Sys :=
  match approve s k id dec with
  | .ok s' => s'
  | .error _ => s

/-- The public operations of spec §6, as one step alphabet. -/
inductive Op
  | opClockIn (emp d ts : Nat)
  | opClockOut (emp d ts : Nat)
  | opApprove (k : Kind) (id : Nat) (dec : Decision)
  | opRequestLeave (emp d : Nat) (lt : LeaveType) (dur : LeaveDuration)
  | opRequestOvertime (emp d : Nat) (hours : ℚ) (t : OvertimeType) (m : CompensationMode)
  | opGenerate (rid a b : Nat)

/-- Apply one public operation; a failed operation leaves the state unchanged
(spec §7: single-entity operations fail atomically). -/
def applyOp (op : Op) (s : Sys) : Sys :=
  match op with
  | .opClockIn emp d ts =>
      match clockIn s emp d ts with
      | .ok s' => s'
      | .error _ => s
  | .opClockOut emp d ts =>
      match clockOut s emp d ts with
      | .ok s' => s'
      | .error _ => s
  | .opApprove k id dec => runApprove s k id dec
  | .opRequestLeave emp d lt dur => (requestLeave s emp d lt dur).1
  | .opRequestOvertime emp d h t m => (requestOvertime s emp d h t m).1
  | .opGenerate rid a b =>
      match generate s rid a b with
      | .ok p => p.1
      | .error _ => s

/-! ### Frontend embedding (src/EmployeePage.jsx)

`handleClockIn`/`handleClockOut` (lines 105–129) post
`{ employee_id: user.user_id, date }` where `user` is parsed from the stored
session (`localStorage.getItem('user')`, line 18); the Clock In / Clock Out
buttons (lines 236–253) invoke them with
`new Date().toISOString().split('T')[0]`, i.e. the date part of the UTC ISO
timestamp.  JS strings are embedded as `List Char`. -/

/-- The session object read from localStorage (`user.user_id` is all the clock
handlers use). -/
structure StoredUser where
  user_id : Nat
deriving DecidableEq, Repr

/-- The full JSON body of a clock-in/clock-out post: exactly the two fields of
the object literal in handleClockIn/handleClockOut. -/
structure ClockPayload where
  employee_id : Nat
  date : List Char
deriving DecidableEq, Repr

structure ApiPost where
  path : List Char
  body : ClockPayload
deriving DecidableEq, Repr

/-- EmployeePage.jsx lines 105–116: `api.post('/employee/clock-in',
{ employee_id: user.user_id, date })`. -/
def handleClockIn (user : StoredUser) (date : List Char) : ApiPost :=
  ⟨"/employee/clock-in".data, ⟨user.user_id, date⟩⟩

/-- EmployeePage.jsx lines 118–129: `api.post('/employee/clock-out',
{ employee_id: user.user_id, date })`. -/
def handleClockOut (user : StoredUser) (date : List Char) : ApiPost :=
  ⟨"/employee/clock-out".data, ⟨user.user_id, date⟩⟩

/-- A JS `Date` value, split into its UTC calendar date and UTC time-of-day
parts — `toISOString` always renders UTC as `<date>T<time>Z`. -/
structure JsDate where
  utcDate : List Char
  utcTime : List Char
deriving DecidableEq, Repr

def toISOString (t : JsDate) : List Char :=
  t.utcDate ++ 'T' :: t.utcTime

/-- `s.split('T')[0]` on an ISO string: everything before the first 'T'. -/
def splitDatePart (scs : List Char) : List Char :=
  scs.takeWhile fun c => c ≠ 'T'

/-- The date argument the buttons pass:
`new Date().toISOString().split('T')[0]` (lines 239 and 247). -/
def todayArg (now : JsDate) : List Char :=
  splitDatePart (toISOString now)

/-- The Clock In button's click action (line 239). -/
def clockInClick (user : StoredUser) (now : JsDate) : ApiPost :=
  handleClockIn user (todayArg now)

/-- The Clock Out button's click action (line 247). -/
def clockOutClick (user : StoredUser) (now : JsDate) : ApiPost :=
  handleClockOut user (todayArg now)

/-! ### Concrete states for scenarios and witnesses -/

/-- Scenario A/B role "Eng": Mon–Fri work days, 40h weekly limit. -/
def engRole : Role := ⟨0, [1, 2, 3, 4, 5], 8, 40, 0⟩

/-- One 09:00–17:00 shift template per weekday (shift id = weekday). -/
def engShifts : List Shift :=
  [1, 2, 3, 4, 5].map fun k => ⟨k, 0, k, 540, 1020, 0, []⟩

/-- The single eligible active employee E. -/
def empE : Employee := ⟨1, 0, true, [], 20⟩

/-- Scenario A state: role Eng, five weekday shifts, one employee, no data. -/
def sysA : Sys :=
  ⟨[engRole], engShifts, [empE], [], [], [], [], [], 1320, 1440⟩

/-- Scenario B state: same as A, but Wednesday (date 2) is a Holiday for Eng. -/
def sysB : Sys :=
  {sysA with holidays := [⟨2, [0]⟩]}

/-- Scenario C state: employee 1 has an 8h schedule 09:00–17:00 on date 0. -/
def sysC : Sys :=
  {sysA with schedules := [⟨1, 0, 540, 1020, some 3⟩]}

/-- Scenario C after clocking in at 09:00 (minute 540). -/
def sysC1 : Sys := applyOp (.opClockIn 1 0 540) sysC

/-- Scenario C after clocking out at 17:30 (minute 1050). -/
def sysC2 : Sys := applyOp (.opClockOut 1 0 1050) sysC1

/-- Scenario A after `generateSchedules(Eng, Mon, Fri)`. -/
def sysAGen : Sys := applyOp (.opGenerate 0 0 4) sysA

/-- Scenario B after `generateSchedules(Eng, Mon, Fri)`. -/
def sysBGen : Sys := applyOp (.opGenerate 0 0 4) sysB

/-- Witness state for approval one-shotness: overtime 0 already APPROVED,
overtime 1 still PENDING. -/
def sysW1 : Sys :=
  {sysA with overtimes :=
    [⟨0, 1, 0, 1, .NORMAL, .EXTRA_PAY, .APPROVED⟩,
     ⟨1, 1, 1, 2, .NORMAL, .EXTRA_PAY, .PENDING⟩]}

/-- Witness state for the leave ledger: employee 2 has no paid allowance and a
PENDING FULL_DAY PAID leave 0; employee 1 (allowance 20) has a PENDING
FULL_DAY PAID leave 1. -/
def sysW9 : Sys :=
  {sysA with
    employees := [empE, ⟨2, 0, true, [], 0⟩],
    leaves :=
      [⟨0, 2, 3, .PAID, .FULL_DAY, .PENDING⟩,
       ⟨1, 1, 3, .PAID, .FULL_DAY, .PENDING⟩]}

/-- Witness state for the attendance recorder: employee 1 has a closed record
on date 0 and an open record on date 1. -/
def sysW3 : Sys :=
  {sysA with attendance :=
    [⟨1, 0, 540, some 1020, some 8, .PRESENT⟩,
     ⟨1, 1, 540, none, none, .PRESENT⟩]}

/-- Witness state for the clock-in guards: employee 1 has an APPROVED leave on
date 5. -/
def sysW4 : Sys :=
  {sysA with leaves := [⟨0, 1, 5, .PAID, .FULL_DAY, .APPROVED⟩]}

/-- Invariant of spec §3: the sum of an employee's scheduled hours within an
ISO week never exceeds the weekly limit of the employee's role. -/
def WeeklyOk (s : Sys) : Prop :=
  ∀ e ∈ s.employees, ∀ r, s.roles.find? (fun x => x.id == e.role_id) = some r →
    ∀ w, scheduledHours s e.id w ≤ r.weekly_hours_limit

/-- Employee ids are unique (the employee table's primary key). -/
def EmpIdsNodup (s : Sys) : Prop :=
  (s.employees.map (·.id)).Nodup

/-- Invariant of spec §3: at most one Attendance record per (employee, date). -/
def AtMostOneAtt (s : Sys) : Prop :=
  ∀ emp d : Nat,
    s.attendance.countP (fun a => a.employee_id == emp && a.date == d) ≤ 1

/-- Equality of all state components except the Schedule table (what a
generation run may touch). -/
def FrameEq (s s' : Sys) : Prop :=
  s'.roles = s.roles ∧ s'.shifts = s.shifts ∧ s'.employees = s.employees ∧
  s'.attendance = s.attendance ∧ s'.overtimes = s.overtimes ∧
  s'.leaves = s.leaves ∧ s'.holidays = s.holidays ∧
  s'.night_start = s.night_start ∧ s'.night_end = s.night_end

/-- A date/shift pair of a generation run is accounted for by the outcome:
its date was skipped wholesale as a HOLIDAY, or a Schedule row was created for
it, or it was skipped as UNSTAFFED (spec §4.2 failure policy). -/
def slotCovered (s' : Sys) (sum : Summary) (d : Nat) (sh : Shift) : Prop :=
  (⟨d, none, .HOLIDAY⟩ : SkipEntry) ∈ sum.skipped ∨
  (∃ row ∈ s'.schedules, row.date = d ∧ row.shift_id = some sh.id) ∨
  (⟨d, some sh.id, .UNSTAFFED⟩ : SkipEntry) ∈ sum.skipped

end SMS

deriving instance DecidableEq for Except

namespace SMS

attribute [local semireducible] Rat.add Rat.sub Rat.mul Rat.inv

/-! ### Generic list lemmas -/

theorem mem_insertBy {le : α → α → Bool} {a x : α} {l : List α} :
    x ∈ insertBy le a l ↔ x = a ∨ x ∈ l := by
  induction l with
  | nil => simp [insertBy]
  | cons b bs ih =>
      by_cases h : le a b = true
      · simp [insertBy, h]
      · simp only [insertBy, h, Bool.false_eq_true, if_false, List.mem_cons, ih]
        tauto

theorem mem_sortBy {le : α → α → Bool} {x : α} {l : List α} :
    x ∈ sortBy le l ↔ x ∈ l := by
  induction l with
  | nil => simp [sortBy]
  | cons b bs ih =>
      simp only [sortBy, List.foldr_cons, mem_insertBy, List.mem_cons]
      rw [show bs.foldr (insertBy le) [] = sortBy le bs from rfl, ih]

theorem takeWhile_middle {p : α → Bool} {l1 l2 : List α} {x : α}
    (h1 : ∀ c ∈ l1, p c = true) (hx : p x = false) :
    (l1 ++ x :: l2).takeWhile p = l1 := by
  induction l1 with
  | nil => simp [List.takeWhile, hx]
  | cons c cs ih =>
      have hc : p c = true := h1 c (by simp)
      simp only [List.cons_append, List.takeWhile_cons, hc, if_true]
      rw [ih fun d hd => h1 d (by simp [hd])]

/-! ### C10: the employee UI's clock requests -/

/-- C10: every clock-in/clock-out request built by the employee UI posts
exactly `{employee_id: user.user_id, date: <UTC calendar date>}` — the
employee id comes from the stored session user, the date is the date part of
`new Date().toISOString()`, and the payload type has no timestamp field, so
the event time is left to the server. -/
theorem clock_requests_payload (user : StoredUser) (now : JsDate)
    (hT : 'T' ∉ now.utcDate) :
    clockInClick user now =
      ⟨"/employee/clock-in".data, ⟨user.user_id, now.utcDate⟩⟩ ∧
    clockOutClick user now =
      ⟨"/employee/clock-out".data, ⟨user.user_id, now.utcDate⟩⟩ := by
  have hsplit : todayArg now = now.utcDate := by
    unfold todayArg toISOString splitDatePart
    apply takeWhile_middle
    · intro c hc
      simp only [decide_eq_true_eq]
      intro h
      exact hT (h ▸ hc)
    · simp
  exact ⟨by simp [clockInClick, handleClockIn, hsplit],
         by simp [clockOutClick, handleClockOut, hsplit]⟩

theorem clock_requests_payload_witness :
    ('T' ∉ ("2026-10-11".data : List Char)) ∧
    clockInClick ⟨7⟩ ⟨"2026-10-11".data, "12:34:56.000Z".data⟩ =
      ⟨"/employee/clock-in".data, ⟨7, "2026-10-11".data⟩⟩ :=
  ⟨by decide,
   (clock_requests_payload ⟨7⟩ ⟨"2026-10-11".data, "12:34:56.000Z".data⟩
     (by decide)).1⟩

/-! ### C7: the Overtime Classifier -/

/-- C7: `classify` yields an entry iff `candidate_hours > 0`; any entry it
yields is PENDING with compensation_mode EXTRA_PAY, the candidate hours and
the type-rule type; concretely, clocking in 09:00 and out 17:30 against the 8h
scheduled shift of `sysC` gives `worked_hours = 8.5` and a PENDING Overtime of
0.5h, NORMAL, EXTRA_PAY. -/
theorem overtime_classifier_contract (s : Sys) (emp d : Nat) (cand : ℚ)
    (w : Option (Nat × Nat)) :
    ((classify s emp d cand w).isSome ↔ 0 < cand) ∧
    (∀ ot, classify s emp d cand w = some ot →
      ot.approval_status = .PENDING ∧ ot.compensation_mode = .EXTRA_PAY ∧
      ot.actual_hours = cand ∧ ot.overtime_type = classifyType s d w) ∧
    (clockIn sysC 1 0 540 = .ok sysC1 ∧ clockOut sysC1 1 0 1050 = .ok sysC2 ∧
      sysC2.attendance = [⟨1, 0, 540, some 1050, some (17 / 2), .PRESENT⟩] ∧
      sysC2.overtimes = [⟨0, 1, 0, 1 / 2, .NORMAL, .EXTRA_PAY, .PENDING⟩]) := by
  refine ⟨?_, ?_, by decide, by decide, by decide, by decide⟩
  · by_cases hc : 0 < cand <;> simp [classify, hc]
  · intro ot hot
    by_cases hc : 0 < cand <;> simp [classify, hc] at hot
    cases hot
    exact ⟨rfl, rfl, rfl, rfl⟩

theorem overtime_classifier_contract_witness :
    classify sysA 1 0 1 none =
      some ⟨0, 1, 0, 1, .NORMAL, .EXTRA_PAY, .PENDING⟩ ∧
    (⟨0, 1, 0, (1 : ℚ), .NORMAL, .EXTRA_PAY, .PENDING⟩ : Overtime).approval_status
      = .PENDING :=
  ⟨by decide,
   ((overtime_classifier_contract sysA 1 0 1 none).2.1 _ (by decide)).1⟩

/-! ### C8: employee-initiated overtime requests -/

/-- C8: an employee-initiated overtime request stores the requester's
compensation_mode, is created PENDING directly, and its overtime_type is
computed from the date by the classifier's type rule — identical whatever type
the request carried (HOLIDAY when the date is a Holiday, else NORMAL, the
night clause needing a time interval that a request does not supply). -/
theorem request_overtime_fields (s : Sys) (emp d : Nat) (h : ℚ)
    (treq : OvertimeType) (mode : CompensationMode) :
    (requestOvertime s emp d h treq mode).2.compensation_mode = mode ∧
    (requestOvertime s emp d h treq mode).2.approval_status = .PENDING ∧
    (requestOvertime s emp d h treq mode).2.actual_hours = h ∧
    (requestOvertime s emp d h treq mode).2.overtime_type = classifyType s d none ∧
    (requestOvertime s emp d h treq mode).1.overtimes
      = s.overtimes ++ [(requestOvertime s emp d h treq mode).2] ∧
    (∀ t', (requestOvertime s emp d h t' mode).2
      = (requestOvertime s emp d h treq mode).2) ∧
    (isHolidayAny s d = true → classifyType s d none = .HOLIDAY) ∧
    (isHolidayAny s d = false → classifyType s d none = .NORMAL) := by
  refine ⟨rfl, rfl, rfl, rfl, rfl, fun t' => rfl, ?_, ?_⟩
  · intro hh
    simp [classifyType, hh]
  · intro hh
    simp [classifyType, hh]

/-! ### Lemmas about the approval engine -/

theorem find?_setOvertimeStatus (os : List Overtime) (id : Nat)
    (st : ApprovalStatus) :
    (setOvertimeStatus os id st).find? (fun o => o.id == id)
      = (os.find? (fun o => o.id == id)).map
          fun o => {o with approval_status := st} := by
  induction os with
  | nil => simp [setOvertimeStatus]
  | cons o os ih =>
      by_cases h : (o.id == id) = true
      · simp [setOvertimeStatus, h, List.find?_cons_of_pos]
      · simp only [setOvertimeStatus, h, Bool.false_eq_true, if_false]
        rw [List.find?_cons_of_neg _ (by simpa using h),
            List.find?_cons_of_neg _ (by simpa using h), ih]

theorem find?_setLeaveStatus (ls : List Leave) (id : Nat)
    (st : ApprovalStatus) :
    (setLeaveStatus ls id st).find? (fun l => l.id == id)
      = (ls.find? (fun l => l.id == id)).map
          fun l => {l with approval_status := st} := by
  induction ls with
  | nil => simp [setLeaveStatus]
  | cons l ls ih =>
      by_cases h : (l.id == id) = true
      · simp [setLeaveStatus, h, List.find?_cons_of_pos]
      · simp only [setLeaveStatus, h, Bool.false_eq_true, if_false]
        rw [List.find?_cons_of_neg _ (by simpa using h),
            List.find?_cons_of_neg _ (by simpa using h), ih]

theorem toStatus_ne_pending (dec : Decision) : dec.toStatus ≠ .PENDING := by
  cases dec <;> simp [Decision.toStatus]

theorem runApprove_of_error (s : Sys) (k : Kind) (id : Nat) (dec : Decision)
    (e : Err) (h : approve s k id dec = .error e) :
    runApprove s k id dec = s := by
  simp [runApprove, h]

theorem approve_nonpending_conflict (s : Sys) (k : Kind) (id : Nat)
    (dec : Decision) (st : ApprovalStatus)
    (h : statusOf s k id = some st) (hne : st ≠ .PENDING) :
    approve s k id dec = .error .ConflictError := by
  cases k with
  | OVERTIME =>
      cases hfo : s.overtimes.find? (fun o => o.id == id) with
      | none => simp [statusOf, hfo] at h
      | some o =>
          have h' : o.approval_status = st := by simpa [statusOf, hfo] using h
          have hne' : o.approval_status ≠ .PENDING := by rw [h']; exact hne
          simp [approve, hfo, hne']
  | LEAVE =>
      cases hfl : s.leaves.find? (fun l => l.id == id) with
      | none => simp [statusOf, hfl] at h
      | some l =>
          have h' : l.approval_status = st := by simpa [statusOf, hfl] using h
          have hne' : l.approval_status ≠ .PENDING := by rw [h']; exact hne
          simp [approve, hfl, hne']

theorem approve_ok_overtime (s s' : Sys) (id : Nat) (dec : Decision)
    (h : approve s .OVERTIME id dec = .ok s') :
    s' = {s with overtimes := setOvertimeStatus s.overtimes id dec.toStatus} := by
  cases hfo : s.overtimes.find? (fun o => o.id == id) with
  | none => simp [approve, hfo] at h
  | some o =>
      by_cases hp : o.approval_status = .PENDING
      · simp [approve, hfo, hp] at h
        exact h.symm
      · simp [approve, hfo, hp] at h

theorem approve_ok_leave (s s' : Sys) (id : Nat) (dec : Decision)
    (h : approve s .LEAVE id dec = .ok s') :
    s' = {s with leaves := setLeaveStatus s.leaves id dec.toStatus} := by
  cases hfl : s.leaves.find? (fun l => l.id == id) with
  | none => simp [approve, hfl] at h
  | some l =>
      by_cases hp : l.approval_status = .PENDING
      · cases dec with
        | REJECTED =>
            simp [approve, hfl, hp, Decision.toStatus] at h ⊢
            exact h.symm
        | APPROVED =>
            cases hlt : l.leave_type <;>
              simp only [approve, hfl, hp, hlt, ne_eq, not_true_eq_false,
                if_false, Decision.toStatus] at h ⊢
            · split at h
              · cases h
              · cases h
                rfl
            · cases h
              rfl
            · split at h
              · cases h
              · cases h
                rfl
      · simp [approve, hfl, hp] at h

theorem statusOf_after_ok (s s' : Sys) (k : Kind) (id : Nat) (dec : Decision)
    (h : approve s k id dec = .ok s') (st : ApprovalStatus)
    (hst : statusOf s k id = some st) :
    statusOf s' k id = some dec.toStatus := by
  cases k with
  | OVERTIME =>
      cases hfo : s.overtimes.find? (fun o => o.id == id) with
      | none => simp [statusOf, hfo] at hst
      | some o =>
          rw [approve_ok_overtime s s' id dec h]
          simp [statusOf, find?_setOvertimeStatus, hfo]
  | LEAVE =>
      cases hfl : s.leaves.find? (fun l => l.id == id) with
      | none => simp [statusOf, hfl] at hst
      | some l =>
          rw [approve_ok_leave s s' id dec h]
          simp [statusOf, find?_setLeaveStatus, hfl]

theorem approve_ok_statusOf_some (s s' : Sys) (k : Kind) (id : Nat)
    (dec : Decision) (h : approve s k id dec = .ok s') :
    ∃ st, statusOf s k id = some st := by
  cases k with
  | OVERTIME =>
      cases hfo : s.overtimes.find? (fun o => o.id == id) with
      | none => simp [approve, hfo] at h
      | some o => exact ⟨o.approval_status, by simp [statusOf, hfo]⟩
  | LEAVE =>
      cases hfl : s.leaves.find? (fun l => l.id == id) with
      | none => simp [approve, hfl] at h
      | some l => exact ⟨l.approval_status, by simp [statusOf, hfl]⟩

/-! ### Frame lemmas for the Schedule Generator -/

theorem frameEq_refl (s : Sys) : FrameEq s s :=
  ⟨rfl, rfl, rfl, rfl, rfl, rfl, rfl, rfl, rfl⟩

theorem frameEq_trans {s t u : Sys} (h1 : FrameEq s t) (h2 : FrameEq t u) :
    FrameEq s u := by
  obtain ⟨a1, b1, c1, d1, e1, f1, g1, h1', i1⟩ := h1
  obtain ⟨a2, b2, c2, d2, e2, f2, g2, h2', i2⟩ := h2
  exact ⟨a2.trans a1, b2.trans b1, c2.trans c1, d2.trans d1, e2.trans e1,
    f2.trans f1, g2.trans g1, h2'.trans h1', i2.trans i1⟩

theorem processShift_frame (s : Sys) (d : Nat) (sh : Shift) (role : Role) :
    FrameEq s (processShift s d sh role).1 := by
  unfold processShift
  cases resolve s role d sh.start_time sh.end_time sh.required_skills with
  | nil => exact frameEq_refl s
  | cons e rest =>
      by_cases h : hasOverlap s e d sh.start_time sh.end_time = true
      · simp only [h, if_true]
        exact frameEq_refl s
      · simp only [h, if_false]
        exact ⟨rfl, rfl, rfl, rfl, rfl, rfl, rfl, rfl, rfl⟩

theorem processShifts_frame (d : Nat) (role : Role) (shs : List Shift) :
    ∀ s : Sys, FrameEq s (processShifts s d role shs).1 := by
  induction shs with
  | nil => intro s; exact frameEq_refl s
  | cons sh shs ih =>
      intro s
      exact frameEq_trans (processShift_frame s d sh role)
        (ih (processShift s d sh role).1)

theorem processDate_frame (s : Sys) (role : Role) (d : Nat) :
    FrameEq s (processDate s role d).1 := by
  unfold processDate
  by_cases h : isHolidayFor s role d = true
  · simp only [h, if_true]
    exact frameEq_refl s
  · simp only [h, if_false]
    exact processShifts_frame d role (shiftsOn s.shifts role d) s

theorem processDates_frame (role : Role) (ds : List Nat) :
    ∀ s : Sys, FrameEq s (processDates s role ds).1 := by
  induction ds with
  | nil => intro s; exact frameEq_refl s
  | cons d ds ih =>
      intro s
      exact frameEq_trans (processDate_frame s role d)
        (ih (processDate s role d).1)

theorem isHolidayFor_congr {s s' : Sys} (h : s'.holidays = s.holidays)
    (role : Role) (d : Nat) : isHolidayFor s' role d = isHolidayFor s role d := by
  simp [isHolidayFor, h]

theorem processShift_sched_mono (s : Sys) (d : Nat) (sh : Shift) (role : Role)
    {row : Schedule} (h : row ∈ s.schedules) :
    row ∈ (processShift s d sh role).1.schedules := by
  unfold processShift
  cases resolve s role d sh.start_time sh.end_time sh.required_skills with
  | nil => exact h
  | cons e rest =>
      by_cases hc : hasOverlap s e d sh.start_time sh.end_time = true
      · simpa [hc] using h
      · simp only [hc, if_false]
        exact List.mem_cons_of_mem _ h

theorem processShifts_sched_mono (d : Nat) (role : Role) (shs : List Shift) :
    ∀ (s : Sys) {row : Schedule}, row ∈ s.schedules →
      row ∈ (processShifts s d role shs).1.schedules := by
  induction shs with
  | nil => intro s row h; exact h
  | cons sh shs ih =>
      intro s row h
      exact ih (processShift s d sh role).1
        (processShift_sched_mono s d sh role h)

theorem processDate_sched_mono (s : Sys) (role : Role) (d : Nat)
    {row : Schedule} (h : row ∈ s.schedules) :
    row ∈ (processDate s role d).1.schedules := by
  unfold processDate
  by_cases hh : isHolidayFor s role d = true
  · simpa [hh] using h
  · simp only [hh, if_false]
    exact processShifts_sched_mono d role (shiftsOn s.shifts role d) s h

theorem processDates_sched_mono (role : Role) (ds : List Nat) :
    ∀ (s : Sys) {row : Schedule}, row ∈ s.schedules →
      row ∈ (processDates s role ds).1.schedules := by
  induction ds with
  | nil => intro s row h; exact h
  | cons d ds ih =>
      intro s row h
      exact ih (processDate s role d).1 (processDate_sched_mono s role d h)

theorem processShift_cases (s : Sys) (d : Nat) (sh : Shift) (role : Role) :
    processShift s d sh role = (s, .skip ⟨d, some sh.id, .UNSTAFFED⟩) ∨
    ∃ eid rest,
      resolve s role d sh.start_time sh.end_time sh.required_skills
        = eid :: rest ∧
      hasOverlap s eid d sh.start_time sh.end_time = false ∧
      processShift s d sh role =
        ({s with schedules :=
            ⟨eid, d, sh.start_time, sh.end_time, some sh.id⟩ :: s.schedules},
         .created ⟨eid, d, sh.start_time, sh.end_time, some sh.id⟩) := by
  unfold processShift
  cases hres : resolve s role d sh.start_time sh.end_time sh.required_skills with
  | nil => exact Or.inl rfl
  | cons e rest =>
      by_cases hc : hasOverlap s e d sh.start_time sh.end_time = true
      · left
        simp [hc]
      · right
        exact ⟨e, rest, rfl, by simpa using hc, by simp [hc]⟩

theorem processShift_sched_new (s : Sys) (d : Nat) (sh : Shift) (role : Role)
    {row : Schedule} (h : row ∈ (processShift s d sh role).1.schedules) :
    row ∈ s.schedules ∨ row.date = d := by
  rcases processShift_cases s d sh role with heq | ⟨eid, rest, hres, hc, heq⟩
  · rw [heq] at h
    exact Or.inl h
  · rw [heq] at h
    rcases List.mem_cons.mp h with heq' | hmem
    · right
      rw [heq']
    · exact Or.inl hmem

theorem processShifts_sched_new (d : Nat) (role : Role) (shs : List Shift) :
    ∀ (s : Sys) {row : Schedule},
      row ∈ (processShifts s d role shs).1.schedules →
      row ∈ s.schedules ∨ row.date = d := by
  induction shs with
  | nil => intro s row h; exact Or.inl h
  | cons sh shs ih =>
      intro s row h
      rcases ih (processShift s d sh role).1 h with hmem | hdate
      · exact processShift_sched_new s d sh role hmem
      · exact Or.inr hdate

theorem processDates_sched_new (role : Role) (ds : List Nat) :
    ∀ (s : Sys) {row : Schedule},
      row ∈ (processDates s role ds).1.schedules →
      row ∈ s.schedules ∨
        (row.date ∈ ds ∧ isHolidayFor s role row.date = false) := by
  induction ds with
  | nil => intro s row h; exact Or.inl h
  | cons d ds ih =>
      intro s row h
      rcases ih (processDate s role d).1 h with hmem | ⟨hdd, hhol⟩
      · unfold processDate at hmem
        by_cases hh : isHolidayFor s role d = true
        · rw [if_pos hh] at hmem
          exact Or.inl hmem
        · rw [if_neg hh] at hmem
          rcases processShifts_sched_new d role (shiftsOn s.shifts role d) s hmem
            with hmem' | hdate
          · exact Or.inl hmem'
          · exact Or.inr ⟨by simp [hdate], by rw [hdate]; simpa using hh⟩
      · refine Or.inr ⟨by simp [hdd], ?_⟩
        rwa [isHolidayFor_congr
          (processDate_frame s role d).2.2.2.2.2.2.1 role row.date] at hhol

/-! ### Lemmas about the Attendance Recorder and the step alphabet -/

theorem clockIn_cases (s : Sys) (emp d ts : Nat) :
    (clockIn s emp d ts = .error .ConflictError ∧
      s.attendance.any (fun a => a.employee_id == emp && a.date == d) = true) ∨
    (clockIn s emp d ts = .error .ConstraintViolation ∧
      s.attendance.any (fun a => a.employee_id == emp && a.date == d) = false ∧
      isBlocked s emp d = true) ∨
    (clockIn s emp d ts = .ok
        {s with attendance := ⟨emp, d, ts, none, none, .PRESENT⟩ :: s.attendance} ∧
      s.attendance.any (fun a => a.employee_id == emp && a.date == d) = false ∧
      isBlocked s emp d = false) := by
  by_cases h1 : s.attendance.any (fun a => a.employee_id == emp && a.date == d) = true
  · left
    exact ⟨by simp [clockIn, h1], h1⟩
  · have h1' : s.attendance.any (fun a => a.employee_id == emp && a.date == d) = false := by
      simpa using h1
    by_cases h2 : isBlocked s emp d = true
    · right
      left
      exact ⟨by simp [clockIn, h1', h2], h1', h2⟩
    · have h2' : isBlocked s emp d = false := by simpa using h2
      right
      right
      exact ⟨by simp [clockIn, h1', h2'], h1', h2'⟩

theorem clockOut_ok_shape (s : Sys) (emp d ts : Nat) (s' : Sys)
    (h : clockOut s emp d ts = .ok s') :
    ∃ a, openRec s emp d = some a ∧ a.clock_in < ts ∧
      s'.attendance = (closeSys s emp d ts a).attendance := by
  unfold clockOut at h
  split at h
  · cases h
  next a ha =>
    split at h
    · cases h
    next hle =>
      split at h
      · cases h
        exact ⟨a, ha, Nat.lt_of_not_le (by simpa using hle), rfl⟩
      next row hrow =>
        split at h
        · cases h
          exact ⟨a, ha, Nat.lt_of_not_le (by simpa using hle), rfl⟩
        next ot hot =>
          cases h
          exact ⟨a, ha, Nat.lt_of_not_le (by simpa using hle), rfl⟩

theorem generate_ok_shape (s : Sys) (rid a b : Nat) (p : Sys × Summary)
    (h : generate s rid a b = .ok p) :
    ∃ role, s.roles.find? (fun r => r.id == rid) = some role ∧ ¬b < a ∧
      p.1 = (processDates s role (dateRange a b)).1 ∧
      p.2 = ⟨createdCount (processDates s role (dateRange a b)).2,
             skipsOf (processDates s role (dateRange a b)).2⟩ := by
  unfold generate at h
  split at h
  · cases h
  next role hrole =>
    split at h
    · cases h
    next hba =>
      cases h
      exact ⟨role, hrole, hba, rfl, rfl⟩

theorem runApprove_attendance (s : Sys) (k : Kind) (id : Nat) (dec : Decision) :
    (runApprove s k id dec).attendance = s.attendance := by
  unfold runApprove
  cases hap : approve s k id dec with
  | error e => rfl
  | ok s' =>
      cases k with
      | OVERTIME => rw [approve_ok_overtime s s' id dec hap]
      | LEAVE => rw [approve_ok_leave s s' id dec hap]

theorem closeUpd_closed (emp d ts : Nat) (wh : ℚ) (x : Attendance)
    (hc : x.clock_out.isSome = true) : closeUpd emp d ts wh x = x := by
  unfold closeUpd
  cases hx : x.clock_out with
  | none => rw [hx] at hc; cases hc
  | some v => simp [hx]

theorem closeUpd_fields (emp d ts : Nat) (wh : ℚ) (x : Attendance) :
    (closeUpd emp d ts wh x).employee_id = x.employee_id ∧
    (closeUpd emp d ts wh x).date = x.date := by
  unfold closeUpd
  split <;> exact ⟨rfl, rfl⟩

/-- Closed attendance records survive every public operation unchanged. -/
theorem closedAtt_preserved (op : Op) (s : Sys) {a : Attendance}
    (ha : a ∈ s.attendance) (hc : a.clock_out.isSome = true) :
    a ∈ (applyOp op s).attendance := by
  cases op with
  | opClockIn emp d ts =>
      simp only [applyOp]
      cases hci : clockIn s emp d ts with
      | error e => exact ha
      | ok s' =>
          rcases clockIn_cases s emp d ts with ⟨he, _⟩ | ⟨he, _, _⟩ | ⟨he, _, _⟩ <;>
            rw [he] at hci
          · cases hci
          · cases hci
          · cases hci
            exact List.mem_cons_of_mem _ ha
  | opClockOut emp d ts =>
      simp only [applyOp]
      cases hco : clockOut s emp d ts with
      | error e => exact ha
      | ok s' =>
          obtain ⟨b, hb, hlt, hatt⟩ := clockOut_ok_shape s emp d ts s' hco
          rw [hatt]
          have hfa := closeUpd_closed emp d ts
            (((ts - b.clock_in : Nat) : ℚ) / 60) a hc
          exact hfa ▸ List.mem_map_of_mem _ ha
  | opApprove k id dec =>
      show a ∈ (runApprove s k id dec).attendance
      rw [runApprove_attendance]
      exact ha
  | opRequestLeave emp d lt dur => exact ha
  | opRequestOvertime emp d h t m => exact ha
  | opGenerate rid x y =>
      simp only [applyOp]
      cases hg : generate s rid x y with
      | error e => exact ha
      | ok p =>
          obtain ⟨role, hrole, hba, hs', hsum⟩ := generate_ok_shape s rid x y p hg
          show a ∈ p.1.attendance
          rw [hs', (processDates_frame role (dateRange x y) s).2.2.2.1]
          exact ha

/-- Every public operation preserves "at most one Attendance record per
(employee, date)". -/
theorem attCount_preserved (op : Op) (s : Sys) (h : AtMostOneAtt s) :
    AtMostOneAtt (applyOp op s) := by
  cases op with
  | opClockIn emp d ts =>
      simp only [applyOp]
      cases hci : clockIn s emp d ts with
      | error e => exact h
      | ok s' =>
          rcases clockIn_cases s emp d ts with ⟨he, _⟩ | ⟨he, _, _⟩ | ⟨he, hany, _⟩ <;>
            rw [he] at hci
          · cases hci
          · cases hci
          · cases hci
            intro e' d'
            rw [List.countP_cons]
            by_cases hp : ((⟨emp, d, ts, none, none, .PRESENT⟩ : Attendance).employee_id == e' &&
                (⟨emp, d, ts, none, none, .PRESENT⟩ : Attendance).date == d') = true
            · have he' : emp = e' ∧ d = d' := by
                simpa using hp
              obtain ⟨he1, he2⟩ := he'
              subst he1
              subst he2
              have hzero : s.attendance.countP
                  (fun a => a.employee_id == emp && a.date == d) = 0 := by
                rw [List.countP_eq_zero]
                intro x hx
                exact List.any_eq_false.mp hany x hx
              simp [hp, hzero]
            · have hp' : ((⟨emp, d, ts, none, none, .PRESENT⟩ : Attendance).employee_id == e' &&
                  (⟨emp, d, ts, none, none, .PRESENT⟩ : Attendance).date == d') = false := by
                simpa using hp
              simpa [hp'] using h e' d'
  | opClockOut emp d ts =>
      simp only [applyOp]
      cases hco : clockOut s emp d ts with
      | error e => exact h
      | ok s' =>
          obtain ⟨b, hb, hlt, hatt⟩ := clockOut_ok_shape s emp d ts s' hco
          intro e' d'
          rw [hatt]
          show ((s.attendance.map _).countP _) ≤ 1
          rw [List.countP_map]
          calc s.attendance.countP _
              = s.attendance.countP (fun a => a.employee_id == e' && a.date == d') := by
                apply List.countP_congr
                intro x hx
                have hf := closeUpd_fields emp d ts
                  (((ts - b.clock_in : Nat) : ℚ) / 60) x
                simp [Function.comp, hf.1, hf.2]
            _ ≤ 1 := h e' d'
  | opApprove k id dec =>
      intro e' d'
      show ((runApprove s k id dec).attendance.countP _) ≤ 1
      rw [runApprove_attendance]
      exact h e' d'
  | opRequestLeave emp d lt dur => exact h
  | opRequestOvertime emp d hh t m => exact h
  | opGenerate rid x y =>
      simp only [applyOp]
      cases hg : generate s rid x y with
      | error e => exact h
      | ok p =>
          obtain ⟨role, hrole, hba, hs', hsum⟩ := generate_ok_shape s rid x y p hg
          intro e' d'
          show (p.1.attendance.countP fun a => a.employee_id == e' && a.date == d') ≤ 1
          rw [hs', (processDates_frame role (dateRange x y) s).2.2.2.1]
          exact h e' d'

theorem leavesPaidDays_cons (x : Leave) (xs : List Leave) (emp : Nat) :
    leavesPaidDays (x :: xs) emp
      = (if (x.employee_id == emp && x.leave_type == LeaveType.PAID &&
            x.approval_status == ApprovalStatus.APPROVED) = true then
          durDays x.duration else 0) + leavesPaidDays xs emp := by
  simp only [leavesPaidDays, List.filter_cons]
  split
  · simp [List.sum_cons]
  · simp

theorem leavesPaidDays_set (ls : List Leave) (id : Nat) (l : Leave)
    (hf : ls.find? (fun x => x.id == id) = some l)
    (hp : l.approval_status = .PENDING) (ht : l.leave_type = .PAID) :
    leavesPaidDays (setLeaveStatus ls id .APPROVED) l.employee_id
      = leavesPaidDays ls l.employee_id + durDays l.duration := by
  induction ls with
  | nil => simp at hf
  | cons x xs ih =>
      by_cases hx : (x.id == id) = true
      · rw [List.find?_cons_of_pos (p := fun y => y.id == id) xs hx,
            Option.some_inj] at hf
        subst hf
        simp only [setLeaveStatus, hx, if_true]
        rw [leavesPaidDays_cons, leavesPaidDays_cons]
        simp [hp, ht]
        ring
      · rw [List.find?_cons_of_neg (p := fun y => y.id == id) xs
            (by simpa using hx)] at hf
        simp only [setLeaveStatus, hx, Bool.false_eq_true, if_false]
        rw [leavesPaidDays_cons, leavesPaidDays_cons, ih hf]
        ring

/-! ### C3: clock-out and record immutability -/

theorem clockOut_ok_exists (s : Sys) (emp d ts : Nat) (a : Attendance)
    (ha : openRec s emp d = some a) (hlt : a.clock_in < ts) :
    ∃ s', clockOut s emp d ts = .ok s' := by
  unfold clockOut
  split
  next heq =>
    rw [heq] at ha
    cases ha
  next b heq =>
    rw [heq, Option.some_inj] at ha
    subst ha
    rw [if_neg (Nat.not_le.mpr hlt)]
    split
    · exact ⟨_, rfl⟩
    · split
      · exact ⟨_, rfl⟩
      · exact ⟨_, rfl⟩

/-- C3: `clockOut` fails with NotFoundError when no open record exists for the
(employee, date); fails with ConstraintViolation when `timestamp ≤ clock_in`,
mutating nothing; on success it closes the record with `clock_out = timestamp`
and `worked_hours = (timestamp − clock_in) / 60` fractional hours; and a
closed record is frozen — no public operation changes it. -/
theorem clockOut_contract (s : Sys) (emp d ts : Nat) :
    (openRec s emp d = none → clockOut s emp d ts = .error .NotFoundError) ∧
    (∀ a, openRec s emp d = some a → ts ≤ a.clock_in →
      clockOut s emp d ts = .error .ConstraintViolation ∧
      applyOp (.opClockOut emp d ts) s = s) ∧
    (∀ a, openRec s emp d = some a → a.clock_in < ts →
      ∃ s', clockOut s emp d ts = .ok s' ∧
        ({a with
          clock_out := some ts,
          worked_hours := some (((ts - a.clock_in : Nat) : ℚ) / 60)} : Attendance)
          ∈ s'.attendance) ∧
    (∀ (op : Op) (x : Attendance), x ∈ s.attendance →
      x.clock_out.isSome = true → x ∈ (applyOp op s).attendance) := by
  refine ⟨?_, ?_, ?_, fun op x hx hc => closedAtt_preserved op s hx hc⟩
  · intro h
    simp [clockOut, h]
  · intro a ha hle
    have herr : clockOut s emp d ts = .error .ConstraintViolation := by
      simp [clockOut, ha, hle]
    exact ⟨herr, by simp [applyOp, herr]⟩
  · intro a ha hlt
    obtain ⟨s', hs'⟩ := clockOut_ok_exists s emp d ts a ha hlt
    obtain ⟨b, hb, _, hatt⟩ := clockOut_ok_shape s emp d ts s' hs'
    rw [ha, Option.some_inj] at hb
    subst hb
    refine ⟨s', hs', ?_⟩
    rw [hatt]
    have hpred := List.find?_some ha
    have hupd : closeUpd emp d ts (((ts - a.clock_in : Nat) : ℚ) / 60) a
        = {a with
            clock_out := some ts,
            worked_hours := some (((ts - a.clock_in : Nat) : ℚ) / 60)} := by
      unfold closeUpd
      rw [if_pos hpred]
    exact hupd ▸ List.mem_map_of_mem _ (List.mem_of_find?_eq_some ha)

theorem clockOut_contract_witness :
    openRec sysW3 1 2 = none ∧
    clockOut sysW3 1 2 1000 = .error .NotFoundError ∧
    openRec sysW3 1 1 = some ⟨1, 1, 540, none, none, .PRESENT⟩ ∧
    clockOut sysW3 1 1 500 = .error .ConstraintViolation ∧
    (∃ s', clockOut sysW3 1 1 1020 = .ok s' ∧
      ({(⟨1, 1, 540, none, none, .PRESENT⟩ : Attendance) with
        clock_out := some 1020,
        worked_hours := some (((1020 - 540 : Nat) : ℚ) / 60)} : Attendance)
        ∈ s'.attendance) :=
  ⟨by decide,
   (clockOut_contract sysW3 1 2 1000).1 (by decide),
   by decide,
   ((clockOut_contract sysW3 1 1 500).2.1 ⟨1, 1, 540, none, none, .PRESENT⟩
     (by decide) (by decide)).1,
   (clockOut_contract sysW3 1 1 1020).2.2.1 ⟨1, 1, 540, none, none, .PRESENT⟩
     (by decide) (by decide)⟩

/-! ### C4: clock-in guards and per-day uniqueness -/

/-- C4: `clockIn` fails with ConflictError whenever any Attendance record for
the (employee, date) exists, fails with ConstraintViolation whenever an
APPROVED Leave covers the date, creates exactly one open PRESENT record on
success, and every public operation preserves "at most one Attendance record
per (employee, date)". -/
theorem clockIn_contract (s : Sys) (emp d ts : Nat) :
    (s.attendance.any (fun a => a.employee_id == emp && a.date == d) = true →
      clockIn s emp d ts = .error .ConflictError) ∧
    (s.attendance.any (fun a => a.employee_id == emp && a.date == d) = false →
      isBlocked s emp d = true →
      clockIn s emp d ts = .error .ConstraintViolation) ∧
    (s.attendance.any (fun a => a.employee_id == emp && a.date == d) = false →
      isBlocked s emp d = false →
      clockIn s emp d ts = .ok
        {s with attendance := ⟨emp, d, ts, none, none, .PRESENT⟩ :: s.attendance}) ∧
    (∀ op : Op, AtMostOneAtt s → AtMostOneAtt (applyOp op s)) := by
  refine ⟨?_, ?_, ?_, fun op h => attCount_preserved op s h⟩
  · intro h1
    simp [clockIn, h1]
  · intro h1 h2
    simp [clockIn, h1, h2]
  · intro h1 h2
    simp [clockIn, h1, h2]

theorem clockIn_contract_witness :
    (sysW3.attendance.any (fun a => a.employee_id == 1 && a.date == 0) = true) ∧
    clockIn sysW3 1 0 600 = .error .ConflictError ∧
    isBlocked sysW4 1 5 = true ∧
    clockIn sysW4 1 5 540 = .error .ConstraintViolation ∧
    clockIn sysA 1 0 540 = .ok
      {sysA with attendance := [⟨1, 0, 540, none, none, .PRESENT⟩]} ∧
    AtMostOneAtt (applyOp (.opClockIn 1 0 540) sysA) :=
  ⟨by decide,
   (clockIn_contract sysW3 1 0 600).1 (by decide),
   by decide,
   (clockIn_contract sysW4 1 5 540).2.1 (by decide) (by decide),
   (clockIn_contract sysA 1 0 540).2.2.1 (by decide) (by decide),
   (clockIn_contract sysA 1 0 540).2.2.2 (.opClockIn 1 0 540)
     (fun _ _ => Nat.zero_le 1)⟩

/-! ### C2: the weekly-hours cap invariant -/

theorem scheduledHours_cons (s : Sys) (row : Schedule) (emp w : Nat) :
    scheduledHours {s with schedules := row :: s.schedules} emp w
      = (if (row.employee_id == emp && isoWeek row.date == w) = true then
          durH row.start_time row.end_time else 0) + scheduledHours s emp w := by
  simp only [scheduledHours, List.filter_cons]
  split
  · simp [List.sum_cons]
  · simp

theorem resolve_head_chk (s : Sys) (role : Role) (d ws we : Nat)
    (skills : List Nat) (eid : Nat) (rest : List Nat)
    (h : resolve s role d ws we skills = eid :: rest) :
    ∃ e ∈ s.employees, e.id = eid ∧ empChk s role d ws we skills e = true := by
  have hmem : eid ∈ resolve s role d ws we skills := by
    rw [h]
    exact List.mem_cons_self _ _
  rw [resolve, mem_sortBy] at hmem
  obtain ⟨e, he, heid⟩ := List.mem_map.mp hmem
  exact ⟨e, (List.mem_filter.mp he).1, heid, (List.mem_filter.mp he).2⟩

theorem empChk_spec (s : Sys) (role : Role) (d ws we : Nat)
    (skills : List Nat) (e : Employee)
    (h : empChk s role d ws we skills e = true) :
    e.role_id = role.id ∧
    scheduledHours s e.id (isoWeek d) + durH ws we ≤ role.weekly_hours_limit := by
  unfold empChk at h
  simp only [Bool.and_eq_true, decide_eq_true_eq, beq_iff_eq] at h
  exact ⟨h.1.1.1.1.1.1, h.1.1.2⟩

theorem processShift_weekly (s : Sys) (role : Role) (d : Nat) (sh : Shift)
    (hR : s.roles.find? (fun x => x.id == role.id) = some role)
    (hN : EmpIdsNodup s) (hW : WeeklyOk s) :
    WeeklyOk (processShift s d sh role).1 := by
  rcases processShift_cases s d sh role with heq | ⟨eid, rest, hres, hc, heq⟩
  · rw [heq]
    exact hW
  · rw [heq]
    obtain ⟨e0, he0mem, he0id, hchk⟩ :=
      resolve_head_chk s role d sh.start_time sh.end_time sh.required_skills
        eid rest hres
    obtain ⟨hrid, hbound⟩ :=
      empChk_spec s role d sh.start_time sh.end_time sh.required_skills e0 hchk
    intro e hemem r hr w
    rw [scheduledHours_cons]
    by_cases hmatch : ((eid == e.id) && (isoWeek d == w)) = true
    · have hm := hmatch
      simp only [Bool.and_eq_true, beq_iff_eq] at hm
      obtain ⟨hide, hwk⟩ := hm
      have he0e : e0 = e :=
        List.inj_on_of_nodup_map hN he0mem hemem
          (by show e0.id = e.id; rw [he0id, hide])
      have hrrole : r = role := by
        have hr' : s.roles.find? (fun x => x.id == role.id) = some r := by
          have hrole_id : e.role_id = role.id := by rw [← he0e]; exact hrid
          rw [← hrole_id]
          exact hr
        rw [hR] at hr'
        exact (Option.some_inj.mp hr').symm
      have hgoal : scheduledHours s e.id w
          + durH sh.start_time sh.end_time ≤ role.weekly_hours_limit := by
        rw [← hwk, ← he0e]
        exact hbound
      rw [if_pos (by simpa using hmatch), hrrole]
      calc durH sh.start_time sh.end_time + scheduledHours s e.id w
          = scheduledHours s e.id w + durH sh.start_time sh.end_time := by ring
        _ ≤ role.weekly_hours_limit := hgoal
    · rw [if_neg (by simpa using hmatch)]
      have := hW e hemem r hr w
      linarith

theorem processShifts_weekly (d : Nat) (role : Role) (shs : List Shift) :
    ∀ s : Sys, s.roles.find? (fun x => x.id == role.id) = some role →
      EmpIdsNodup s → WeeklyOk s → WeeklyOk (processShifts s d role shs).1 := by
  induction shs with
  | nil => intro s _ _ hW; exact hW
  | cons sh shs ih =>
      intro s hR hN hW
      have hfr := processShift_frame s d sh role
      apply ih
      · rw [hfr.1]
        exact hR
      · show ((processShift s d sh role).1.employees.map (·.id)).Nodup
        rw [hfr.2.2.1]
        exact hN
      · exact processShift_weekly s role d sh hR hN hW

theorem processDate_weekly (s : Sys) (role : Role) (d : Nat)
    (hR : s.roles.find? (fun x => x.id == role.id) = some role)
    (hN : EmpIdsNodup s) (hW : WeeklyOk s) :
    WeeklyOk (processDate s role d).1 := by
  unfold processDate
  by_cases hh : isHolidayFor s role d = true
  · simpa [hh] using hW
  · simp only [hh, Bool.false_eq_true, if_false]
    exact processShifts_weekly d role (shiftsOn s.shifts role d) s hR hN hW

theorem processDates_weekly (role : Role) (ds : List Nat) :
    ∀ s : Sys, s.roles.find? (fun x => x.id == role.id) = some role →
      EmpIdsNodup s → WeeklyOk s → WeeklyOk (processDates s role ds).1 := by
  induction ds with
  | nil => intro s _ _ hW; exact hW
  | cons d ds ih =>
      intro s hR hN hW
      have hfr := processDate_frame s role d
      apply ih
      · rw [hfr.1]
        exact hR
      · show ((processDate s role d).1.employees.map (·.id)).Nodup
        rw [hfr.2.2.1]
        exact hN
      · exact processDate_weekly s role d hR hN hW

/-- C2: assuming unique employee ids, a successful `generateSchedules` run
preserves the invariant that the sum of every employee's scheduled hours
within each ISO week stays within the weekly limit of the employee's role
(the resolver's filter (d) blocks any assignment that would exceed it). -/
theorem weekly_cap_invariant (s : Sys) (rid a b : Nat) (s' : Sys)
    (sum : Summary) (hN : EmpIdsNodup s) (hW : WeeklyOk s)
    (hg : generate s rid a b = .ok (s', sum)) : WeeklyOk s' := by
  obtain ⟨role, hrole, hba, hs', hsum⟩ := generate_ok_shape s rid a b (s', sum) hg
  have hid : role.id = rid := by simpa using List.find?_some hrole
  have hR : s.roles.find? (fun x => x.id == role.id) = some role := by
    rw [hid]
    exact hrole
  rw [show s' = (processDates s role (dateRange a b)).1 from hs']
  exact processDates_weekly role (dateRange a b) s hR hN hW

theorem weekly_cap_invariant_witness :
    generate sysA 0 0 4 = .ok (sysAGen, ⟨5, []⟩) ∧ WeeklyOk sysAGen := by
  have hW : WeeklyOk sysA := by
    intro e he r hr w
    have he' : e = empE := by simpa [sysA] using he
    subst he'
    have hr' : engRole = r := by
      simpa [sysA, empE, engRole, List.find?] using hr
    have h0 : scheduledHours sysA empE.id w = 0 := rfl
    rw [← hr', h0]
    show (0 : ℚ) ≤ 40
    decide
  exact ⟨by decide,
    weekly_cap_invariant sysA 0 0 4 sysAGen ⟨5, []⟩
      (by show (sysA.employees.map (·.id)).Nodup; decide) hW (by decide)⟩

/-! ### Coverage lemmas for the Schedule Generator -/

theorem processShifts_cons (s : Sys) (d : Nat) (role : Role) (sh : Shift)
    (shs : List Shift) :
    processShifts s d role (sh :: shs)
      = ((processShifts (processShift s d sh role).1 d role shs).1,
         (processShift s d sh role).2 ::
           (processShifts (processShift s d sh role).1 d role shs).2) := rfl

theorem processDates_cons (s : Sys) (role : Role) (d : Nat) (ds : List Nat) :
    processDates s role (d :: ds)
      = ((processDates (processDate s role d).1 role ds).1,
         (processDate s role d).2 ++
           (processDates (processDate s role d).1 role ds).2) := rfl

theorem mem_skipsOf {sk : SkipEntry} {es : List GenEntry} :
    sk ∈ skipsOf es ↔ GenEntry.skip sk ∈ es := by
  constructor
  · intro h
    obtain ⟨a, ha, hfa⟩ := List.mem_filterMap.mp h
    cases a with
    | created row => cases hfa
    | skip sk' =>
        cases hfa
        exact ha
  · intro h
    exact List.mem_filterMap.mpr ⟨.skip sk, h, rfl⟩

theorem processShift_entry (s : Sys) (d : Nat) (sh : Shift) (role : Role) :
    (processShift s d sh role).2 = .skip ⟨d, some sh.id, .UNSTAFFED⟩ ∨
    ∃ row, (processShift s d sh role).2 = .created row ∧ row.date = d ∧
      row.shift_id = some sh.id ∧ row ∈ (processShift s d sh role).1.schedules := by
  rcases processShift_cases s d sh role with heq | ⟨eid, rest, hres, hc, heq⟩
  · left
    rw [heq]
  · right
    exact ⟨⟨eid, d, sh.start_time, sh.end_time, some sh.id⟩, by rw [heq], rfl, rfl,
      by rw [heq]; exact List.mem_cons_self _ _⟩

theorem processShifts_cover (d : Nat) (role : Role) (shs : List Shift) :
    ∀ s : Sys, ∀ sh ∈ shs,
      (∃ row ∈ (processShifts s d role shs).1.schedules,
        row.date = d ∧ row.shift_id = some sh.id) ∨
      GenEntry.skip ⟨d, some sh.id, .UNSTAFFED⟩ ∈ (processShifts s d role shs).2 := by
  induction shs with
  | nil =>
      intro s sh h
      cases h
  | cons sh0 shs ih =>
      intro s sh hmem
      rw [processShifts_cons]
      rcases List.mem_cons.mp hmem with heq | hmem'
      · subst heq
        rcases processShift_entry s d sh role with hskip |
          ⟨row, hcr, hdate, hsid, hrowmem⟩
        · right
          exact List.mem_cons.mpr (Or.inl hskip.symm)
        · left
          exact ⟨row, processShifts_sched_mono d role shs _ hrowmem, hdate, hsid⟩
      · rcases ih (processShift s d sh0 role).1 sh hmem' with ⟨row, hrm, hd, hs⟩ | hsk
        · left
          exact ⟨row, hrm, hd, hs⟩
        · right
          exact List.mem_cons_of_mem _ hsk

theorem processDates_cover (role : Role) (ds : List Nat) :
    ∀ s : Sys, ∀ d ∈ ds,
      (isHolidayFor s role d = true ∧
        GenEntry.skip ⟨d, none, .HOLIDAY⟩ ∈ (processDates s role ds).2) ∨
      (isHolidayFor s role d = false ∧
        ∀ sh ∈ shiftsOn s.shifts role d,
          (∃ row ∈ (processDates s role ds).1.schedules,
            row.date = d ∧ row.shift_id = some sh.id) ∨
          GenEntry.skip ⟨d, some sh.id, .UNSTAFFED⟩
            ∈ (processDates s role ds).2) := by
  induction ds with
  | nil =>
      intro s d h
      cases h
  | cons d0 ds ih =>
      intro s d hd
      rw [processDates_cons]
      rcases List.mem_cons.mp hd with heq | hmem
      · subst heq
        by_cases hh : isHolidayFor s role d = true
        · left
          refine ⟨hh, ?_⟩
          have hpd : (processDate s role d).2 = [.skip ⟨d, none, .HOLIDAY⟩] := by
            unfold processDate
            rw [if_pos hh]
          rw [hpd]
          exact List.mem_append.mpr (Or.inl (List.mem_singleton.mpr rfl))
        · right
          refine ⟨by simpa using hh, ?_⟩
          intro sh hsh
          have hpd1 : (processDate s role d).1
              = (processShifts s d role (shiftsOn s.shifts role d)).1 := by
            unfold processDate
            rw [if_neg hh]
          have hpd2 : (processDate s role d).2
              = (processShifts s d role (shiftsOn s.shifts role d)).2 := by
            unfold processDate
            rw [if_neg hh]
          rcases processShifts_cover d role (shiftsOn s.shifts role d) s sh hsh
            with ⟨row, hrm, hrd, hrs⟩ | hsk
          · left
            refine ⟨row, ?_, hrd, hrs⟩
            apply processDates_sched_mono role ds
            rw [hpd1]
            exact hrm
          · right
            apply List.mem_append.mpr
            left
            rw [hpd2]
            exact hsk
      · have hfr := processDate_frame s role d0
        have hhol : isHolidayFor (processDate s role d0).1 role d
            = isHolidayFor s role d :=
          isHolidayFor_congr hfr.2.2.2.2.2.2.1 role d
        have hshifts : (processDate s role d0).1.shifts = s.shifts := hfr.2.1
        rcases ih (processDate s role d0).1 d hmem with ⟨hh, hsk⟩ | ⟨hh, hcov⟩
        · left
          exact ⟨by rw [← hhol]; exact hh, List.mem_append.mpr (Or.inr hsk)⟩
        · right
          refine ⟨by rw [← hhol]; exact hh, ?_⟩
          intro sh hsh
          have hsh' : sh ∈ shiftsOn (processDate s role d0).1.shifts role d := by
            rw [hshifts]
            exact hsh
          rcases hcov sh hsh' with ⟨row, hrm, hrd, hrs⟩ | hsk
          · exact Or.inl ⟨row, hrm, hrd, hrs⟩
          · exact Or.inr (List.mem_append.mpr (Or.inr hsk))

theorem generate_eq_ok (s : Sys) (rid a b : Nat) (role : Role)
    (hrole : s.roles.find? (fun r => r.id == rid) = some role) (hab : ¬b < a) :
    generate s rid a b = .ok ((processDates s role (dateRange a b)).1,
      ⟨createdCount (processDates s role (dateRange a b)).2,
       skipsOf (processDates s role (dateRange a b)).2⟩) := by
  unfold generate
  split
  next hnone =>
    rw [hnone] at hrole
    cases hrole
  next role' hr' =>
    have : role' = role := by
      rw [hr'] at hrole
      exact Option.some_inj.mp hrole
    subst this
    rw [if_neg hab]

theorem generate_none (s : Sys) (rid a b : Nat)
    (h : s.roles.find? (fun r => r.id == rid) = none) :
    generate s rid a b = .error .NotFoundError := by
  unfold generate
  split
  next => rfl
  next role' hr' =>
    rw [hr'] at h
    cases h

theorem generate_badrange (s : Sys) (rid a b : Nat) (role : Role)
    (hrole : s.roles.find? (fun r => r.id == rid) = some role) (hba : b < a) :
    generate s rid a b = .error .ValidationError := by
  unfold generate
  split
  next hnone =>
    rw [hnone] at hrole
    cases hrole
  next role' hr' =>
    rw [if_pos hba]

/-! ### C5: generation totality and complete summaries -/

/-- C5: with an existing role and `start_date ≤ end_date`, `generate` always
returns a summary, and every date/shift pair of the range is accounted for —
by the date's HOLIDAY skip, a created Schedule row, or an UNSTAFFED skip;
structural errors (unknown role, invalid date order) fail the whole call with
no state change, before any Schedule is written. -/
theorem generate_total_summary (s : Sys) (rid a b : Nat) :
    (∀ role, s.roles.find? (fun r => r.id == rid) = some role → a ≤ b →
      ∃ s' sum, generate s rid a b = .ok (s', sum) ∧
        ∀ d ∈ dateRange a b, ∀ sh ∈ shiftsOn s.shifts role d,
          slotCovered s' sum d sh) ∧
    (s.roles.find? (fun r => r.id == rid) = none →
      generate s rid a b = .error .NotFoundError ∧
      applyOp (.opGenerate rid a b) s = s) ∧
    (∀ role, s.roles.find? (fun r => r.id == rid) = some role → b < a →
      generate s rid a b = .error .ValidationError ∧
      applyOp (.opGenerate rid a b) s = s) := by
  refine ⟨?_, ?_, ?_⟩
  · intro role hrole hab
    refine ⟨_, _, generate_eq_ok s rid a b role hrole (Nat.not_lt.mpr hab), ?_⟩
    intro d hd sh hsh
    rcases processDates_cover role (dateRange a b) s d hd with ⟨hh, hskmem⟩ |
      ⟨hh, hcov⟩
    · exact Or.inl (mem_skipsOf.mpr hskmem)
    · rcases hcov sh hsh with ⟨row, hrm, hrd, hrs⟩ | hsk
      · exact Or.inr (Or.inl ⟨row, hrm, hrd, hrs⟩)
      · exact Or.inr (Or.inr (mem_skipsOf.mpr hsk))
  · intro h
    have he := generate_none s rid a b h
    exact ⟨he, by simp [applyOp, he]⟩
  · intro role hrole hba
    have he := generate_badrange s rid a b role hrole hba
    exact ⟨he, by simp [applyOp, he]⟩

theorem generate_total_summary_witness :
    sysA.roles.find? (fun r => r.id == 0) = some engRole ∧
    (∃ s' sum, generate sysA 0 0 4 = .ok (s', sum) ∧
      ∀ d ∈ dateRange 0 4, ∀ sh ∈ shiftsOn sysA.shifts engRole d,
        slotCovered s' sum d sh) :=
  ⟨by decide,
   (generate_total_summary sysA 0 0 4).1 engRole (by decide) (by decide)⟩

/-! ### C6: holiday dates in a generation run -/

theorem processShift_edate (s : Sys) (d : Nat) (sh : Shift) (role : Role) :
    (processShift s d sh role).2.edate = d := by
  rcases processShift_cases s d sh role with heq | ⟨eid, rest, _, _, heq⟩ <;>
    rw [heq] <;> rfl

theorem processShifts_edate (d : Nat) (role : Role) (shs : List Shift) :
    ∀ s : Sys, ∀ e ∈ (processShifts s d role shs).2, e.edate = d := by
  induction shs with
  | nil =>
      intro s e h
      rw [show (processShifts s d role []).2 = [] from rfl] at h
      cases h
  | cons sh shs ih =>
      intro s e h
      rw [processShifts_cons] at h
      rcases List.mem_cons.mp h with heq | hmem
      · rw [heq]
        exact processShift_edate s d sh role
      · exact ih _ e hmem

theorem processDate_edate (s : Sys) (role : Role) (d : Nat) :
    ∀ e ∈ (processDate s role d).2, e.edate = d := by
  intro e h
  unfold processDate at h
  by_cases hh : isHolidayFor s role d = true
  · rw [if_pos hh] at h
    rw [List.mem_singleton.mp h]
    rfl
  · rw [if_neg hh] at h
    exact processShifts_edate d role (shiftsOn s.shifts role d) s e h

theorem processDates_edate_mem (role : Role) (ds : List Nat) :
    ∀ s : Sys, ∀ e ∈ (processDates s role ds).2, e.edate ∈ ds := by
  induction ds with
  | nil =>
      intro s e h
      rw [show (processDates s role []).2 = [] from rfl] at h
      cases h
  | cons d0 ds ih =>
      intro s e h
      rw [processDates_cons] at h
      rcases List.mem_append.mp h with h1 | h2
      · exact List.mem_cons.mpr (Or.inl (processDate_edate s role d0 e h1))
      · exact List.mem_cons.mpr (Or.inr (ih _ e h2))

theorem dateRange_nodup (a b : Nat) : (dateRange a b).Nodup := by
  unfold dateRange
  exact List.Nodup.map (fun x y h => by omega) (List.nodup_range _)

theorem processDates_holiday_filter (role : Role) (d : Nat) (s : Sys)
    (ds : List Nat) :
    d ∈ ds → ds.Nodup → isHolidayFor s role d = true →
      (skipsOf (processDates s role ds).2).filter (fun sk => sk.date == d)
        = [⟨d, none, .HOLIDAY⟩] := by
  induction ds generalizing s with
  | nil =>
      intro h
      cases h
  | cons d0 ds ih =>
      intro hd hnd hh
      have hnd0 : d0 ∉ ds := (List.nodup_cons.mp hnd).1
      have hnd' : ds.Nodup := (List.nodup_cons.mp hnd).2
      rw [processDates_cons,
        show skipsOf ((processDate s role d0).2 ++
            (processDates (processDate s role d0).1 role ds).2)
          = skipsOf (processDate s role d0).2 ++
            skipsOf (processDates (processDate s role d0).1 role ds).2
          from List.filterMap_append _ _ _,
        List.filter_append]
      rcases List.mem_cons.mp hd with heq | hmem
      · subst heq
        have hpd : (processDate s role d).2 = [.skip ⟨d, none, .HOLIDAY⟩] := by
          unfold processDate
          rw [if_pos hh]
        have hpd1 : (processDate s role d).1 = s := by
          unfold processDate
          rw [if_pos hh]
        rw [hpd, hpd1]
        have h3 : (skipsOf (processDates s role ds).2).filter
            (fun sk => sk.date == d) = [] := by
          rw [List.filter_eq_nil_iff]
          intro sk hsk
          have hmem2 : GenEntry.skip sk ∈ (processDates s role ds).2 :=
            mem_skipsOf.mp hsk
          have hdds : sk.date ∈ ds := processDates_edate_mem role ds s _ hmem2
          have hne : sk.date ≠ d := fun hcontra => hnd0 (hcontra ▸ hdds)
          simp [hne]
        rw [h3]
        simp [skipsOf]
      · have hne : d ≠ d0 := fun h => hnd0 (h ▸ hmem)
        have h1 : (skipsOf (processDate s role d0).2).filter
            (fun sk => sk.date == d) = [] := by
          rw [List.filter_eq_nil_iff]
          intro sk hsk
          have hskmem := mem_skipsOf.mp hsk
          have hsd : sk.date = d0 := processDate_edate s role d0 _ hskmem
          simp [hsd, hne.symm]
        rw [h1]
        have hfr := processDate_frame s role d0
        have hh' : isHolidayFor (processDate s role d0).1 role d = true := by
          rw [isHolidayFor_congr hfr.2.2.2.2.2.2.1 role d]
          exact hh
        rw [ih (processDate s role d0).1 hmem hnd' hh']
        simp

/-- C6: in a successful generation run, every in-range date that is a Holiday
applicable to the role yields exactly one skip entry — `{date, HOLIDAY}` for
the whole date — and no Schedule row is created on it; concretely, the Mon–Fri
scenario-B run with Wednesday a Holiday returns 4 created rows and the single
skip `{date: Wed, reason: HOLIDAY}`. -/
theorem holiday_dates_skipped (s : Sys) (rid a b : Nat) (s' : Sys)
    (sum : Summary) (role : Role) (d : Nat) :
    (s.roles.find? (fun r => r.id == rid) = some role →
      generate s rid a b = .ok (s', sum) →
      d ∈ dateRange a b → isHolidayFor s role d = true →
      sum.skipped.filter (fun sk => sk.date == d) = [⟨d, none, .HOLIDAY⟩] ∧
      ∀ row ∈ s'.schedules, row.date = d → row ∈ s.schedules) ∧
    generate sysB 0 0 4 = .ok (sysBGen, ⟨4, [⟨2, none, .HOLIDAY⟩]⟩) := by
  constructor
  · intro hrole hgen hd hh
    obtain ⟨role', hr', hba, hs', hsum⟩ := generate_ok_shape s rid a b (s', sum) hgen
    replace hs' : s' = (processDates s role' (dateRange a b)).1 := hs'
    replace hsum : sum
        = ⟨createdCount (processDates s role' (dateRange a b)).2,
           skipsOf (processDates s role' (dateRange a b)).2⟩ := hsum
    have hro : role' = role := by
      rw [hr'] at hrole
      exact Option.some_inj.mp hrole
    subst hro
    constructor
    · rw [hsum]
      exact processDates_holiday_filter role' d s (dateRange a b) hd
        (dateRange_nodup a b) hh
    · intro row hrow hrd
      rw [hs'] at hrow
      rcases processDates_sched_new role' (dateRange a b) s hrow with hmem |
        ⟨hdd, hhol⟩
      · exact hmem
      · rw [hrd, hh] at hhol
        cases hhol
  · decide

theorem holiday_dates_skipped_witness :
    isHolidayFor sysB engRole 2 = true ∧
    ((⟨4, [⟨2, none, .HOLIDAY⟩]⟩ : Summary).skipped.filter
        (fun sk => sk.date == 2) = [⟨2, none, .HOLIDAY⟩] ∧
      ∀ row ∈ sysBGen.schedules, row.date = 2 → row ∈ sysB.schedules) :=
  ⟨by decide,
   (holiday_dates_skipped sysB 0 0 4 sysBGen ⟨4, [⟨2, none, .HOLIDAY⟩]⟩
     engRole 2).1 (by decide) (by decide) (by decide) (by decide)⟩

/-! ### C9: leave requests and the paid-leave balance -/

/-- C9: `requestLeave` always succeeds, creating a PENDING entry regardless of
balance; `paid_remaining` is the yearly allowance minus the approved PAID days;
approving a PAID leave that exceeds `paid_remaining` fails with
ConstraintViolation and leaves the state (hence the PENDING entity) unchanged;
and a successful PAID approval decrements `paid_remaining` by the duration, so
approvals totaling H days against allowance A leave A − H. -/
theorem leave_ledger_spec (s : Sys) (emp d : Nat) (lt : LeaveType)
    (dur : LeaveDuration) (id : Nat) :
    (requestLeave s emp d lt dur).2.approval_status = .PENDING ∧
    (requestLeave s emp d lt dur).1.leaves
      = s.leaves ++ [(requestLeave s emp d lt dur).2] ∧
    (∀ e, paidRemaining s e = yearlyAllowance s e - paidUsed s e) ∧
    (∀ l, s.leaves.find? (fun x => x.id == id) = some l →
      l.approval_status = .PENDING → l.leave_type = .PAID →
      paidRemaining s l.employee_id < durDays l.duration →
      approve s .LEAVE id .APPROVED = .error .ConstraintViolation ∧
      runApprove s .LEAVE id .APPROVED = s) ∧
    (∀ l s', s.leaves.find? (fun x => x.id == id) = some l →
      l.leave_type = .PAID → approve s .LEAVE id .APPROVED = .ok s' →
      paidRemaining s' l.employee_id
        = paidRemaining s l.employee_id - durDays l.duration) := by
  refine ⟨rfl, rfl, fun e => rfl, ?_, ?_⟩
  · intro l hf hp ht hlow
    have herr : approve s .LEAVE id .APPROVED = .error .ConstraintViolation := by
      simp [approve, hf, hp, ht, hlow]
    exact ⟨herr, runApprove_of_error s .LEAVE id .APPROVED _ herr⟩
  · intro l s' hf ht hok
    have hp : l.approval_status = .PENDING := by
      by_contra hp
      simp [approve, hf, hp] at hok
    have hs' := approve_ok_leave s s' id .APPROVED hok
    subst hs'
    have hemp : yearlyAllowance
        {s with leaves := setLeaveStatus s.leaves id Decision.APPROVED.toStatus}
        l.employee_id = yearlyAllowance s l.employee_id := rfl
    simp only [paidRemaining, paidUsed, hemp]
    have := leavesPaidDays_set s.leaves id l hf hp ht
    simp only [Decision.toStatus]
    rw [this]
    ring

theorem leave_ledger_spec_witness :
    sysW9.leaves.find? (fun x => x.id == 0)
      = some ⟨0, 2, 3, .PAID, .FULL_DAY, .PENDING⟩ ∧
    paidRemaining sysW9 2 < durDays .FULL_DAY ∧
    approve sysW9 .LEAVE 0 .APPROVED = .error .ConstraintViolation ∧
    (∃ s', approve sysW9 .LEAVE 1 .APPROVED = .ok s' ∧
      paidRemaining s' 1 = paidRemaining sysW9 1 - durDays .FULL_DAY) :=
  ⟨by decide, by decide,
   ((leave_ledger_spec sysW9 2 3 .PAID .FULL_DAY 0).2.2.2.1
     ⟨0, 2, 3, .PAID, .FULL_DAY, .PENDING⟩ (by decide) rfl rfl (by decide)).1,
   ⟨runApprove sysW9 .LEAVE 1 .APPROVED, by decide,
    (leave_ledger_spec sysW9 1 3 .PAID .FULL_DAY 1).2.2.2.2
      ⟨1, 1, 3, .PAID, .FULL_DAY, .PENDING⟩
      (runApprove sysW9 .LEAVE 1 .APPROVED) (by decide) rfl (by decide)⟩⟩

/-! ### C1: one-shot approval -/

/-- C1: `approve` on an entity whose approval_status is not PENDING fails with
ConflictError and changes nothing; after any successful `approve`, every
further `approve` on the same entity fails with ConflictError and leaves the
state — in particular the entity's status and the paid-leave and comp-off
balances — unchanged. -/
theorem approve_one_shot (s : Sys) (k : Kind) (id : Nat) (dec : Decision) :
    (∀ st, statusOf s k id = some st → st ≠ .PENDING →
      approve s k id dec = .error .ConflictError ∧ runApprove s k id dec = s) ∧
    (∀ s' dec', approve s k id dec = .ok s' →
      approve s' k id dec' = .error .ConflictError ∧
      runApprove s' k id dec' = s' ∧
      statusOf s' k id = some dec.toStatus ∧
      ∀ e, paidRemaining (runApprove s' k id dec') e = paidRemaining s' e ∧
        compOffBalance (runApprove s' k id dec') e = compOffBalance s' e) := by
  constructor
  · intro st hst hne
    have hc := approve_nonpending_conflict s k id dec st hst hne
    exact ⟨hc, runApprove_of_error s k id dec _ hc⟩
  · intro s' dec' hok
    obtain ⟨st, hst⟩ := approve_ok_statusOf_some s s' k id dec hok
    have hst' := statusOf_after_ok s s' k id dec hok st hst
    have hc := approve_nonpending_conflict s' k id dec' dec.toStatus hst'
      (toStatus_ne_pending dec)
    have hrun := runApprove_of_error s' k id dec' _ hc
    exact ⟨hc, hrun, hst', fun e => by rw [hrun]; exact ⟨rfl, rfl⟩⟩

theorem approve_one_shot_witness :
    statusOf sysW1 .OVERTIME 0 = some .APPROVED ∧
    approve sysW1 .OVERTIME 0 .APPROVED = .error .ConflictError ∧
    (∃ s', approve sysW1 .OVERTIME 1 .APPROVED = .ok s' ∧
      approve s' .OVERTIME 1 .REJECTED = .error .ConflictError) :=
  ⟨by decide,
   ((approve_one_shot sysW1 .OVERTIME 0 .APPROVED).1 .APPROVED (by decide)
     (by decide)).1,
   ⟨runApprove sysW1 .OVERTIME 1 .APPROVED, by decide,
    ((approve_one_shot sysW1 .OVERTIME 1 .APPROVED).2
      (runApprove sysW1 .OVERTIME 1 .APPROVED) .REJECTED (by decide)).1⟩⟩

theorem request_overtime_fields_witness :
    isHolidayAny sysA 0 = false ∧
    (requestOvertime sysA 1 0 2 .NIGHT .COMP_OFF).2.compensation_mode
      = .COMP_OFF ∧
    classifyType sysA 0 none = .NORMAL :=
  ⟨by decide,
   (request_overtime_fields sysA 1 0 2 .NIGHT .COMP_OFF).1,
   (request_overtime_fields sysA 1 0 2 .NIGHT .COMP_OFF).2.2.2.2.2.2.2
     (by decide)⟩

end SMS
